import Mathlib

/-
Shallow embedding of the rtxon ray tracer (src/types.rs, src/shapes.rs,
src/materials.rs, src/image.rs, src/main.rs).

The source computes with `f32`; the embedding idealises scalars as exact
rationals.  The `f32` square root is modelled by `Rat.sqrt`, which agrees
with it on perfect squares (all concrete inputs used below are chosen so
that every square root taken is exact).  `sqrt` of a negative argument is
NaN in `f32`; in the source every such value flows only into comparisons
that then take the same branch the model takes, which is noted at each use.
Trait objects (`dyn Material`, `dyn Shape`/`dyn Hit`) are modelled as
function values; the randomness a scatter call consumes is passed as an
explicit argument.
-/

namespace RTXon

/-- `Scalar` from src/types.rs (`f32`), idealised as ℚ. -/
abbrev Scalar := ℚ

/-- `nalgebra::Vector3<f32>` as used throughout the source. -/
structure Vector3 where
  x : Scalar
  y : Scalar
  z : Scalar
deriving DecidableEq

/-- `nalgebra::Point3<f32>`; shares the representation of `Vector3`
(the source converts between them via `.coords` and pointwise ops). -/
abbrev Point3 := Vector3

def Vector3.add (v w : Vector3) : Vector3 :=
  ⟨v.x + w.x, v.y + w.y, v.z + w.z⟩

def Vector3.sub (v w : Vector3) : Vector3 :=
  ⟨v.x - w.x, v.y - w.y, v.z - w.z⟩

def Vector3.neg (v : Vector3) : Vector3 :=
  ⟨-v.x, -v.y, -v.z⟩

def Vector3.smul (k : Scalar) (v : Vector3) : Vector3 :=
  ⟨k * v.x, k * v.y, k * v.z⟩

def Vector3.divScalar (v : Vector3) (k : Scalar) : Vector3 :=
  ⟨v.x / k, v.y / k, v.z / k⟩

instance : Add Vector3 := ⟨Vector3.add⟩

instance : Sub Vector3 := ⟨Vector3.sub⟩

instance : Neg Vector3 := ⟨Vector3.neg⟩

instance : SMul Scalar Vector3 := ⟨Vector3.smul⟩

instance : HDiv Vector3 Scalar Vector3 := ⟨Vector3.divScalar⟩

/-- `Vector3::dot`. -/
def Vector3.dot (v w : Vector3) : Scalar :=
  v.x * w.x + v.y * w.y + v.z * w.z

/-- `Vector3::magnitude` (`sqrt` of the self dot product). -/
def Vector3.magnitude (v : Vector3) : Scalar :=
  Rat.sqrt (v.dot v)

/-- `Vector3::magnitude_squared`. -/
def Vector3.magnitude_squared (v : Vector3) : Scalar :=
  v.dot v

/-- `Vector3::normalize` (`v / ||v||`; the zero vector, NaN in `f32`,
is excluded by hypothesis wherever it matters). -/
def Vector3.normalize (v : Vector3) : Vector3 :=
  v / v.magnitude

/-- `nalgebra`'s `component_mul`, used by `color` in src/main.rs. -/
def Vector3.component_mul (v w : Vector3) : Vector3 :=
  ⟨v.x * w.x, v.y * w.y, v.z * w.z⟩

/-- `Ray` from src/types.rs. -/
structure Ray where
  origin : Point3
  direction : Vector3
deriving DecidableEq

/-- `Ray::new` from src/types.rs: stores the direction normalized. -/
def Ray.new (origin : Point3) (direction : Vector3) : Ray :=
  ⟨origin, direction.normalize⟩

/-- `Ray::at` from src/types.rs. -/
def Ray.at (r : Ray) (t : Scalar) : Point3 :=
  r.origin + t • r.direction

/-- `scalar_to_u8` from src/types.rs: `(f * 255.99) as u8`, a saturating
truncation to the byte range. -/
def scalar_to_u8 (f : Scalar) : ℕ :=
  min 255 (Int.toNat ⌊f * (25599 / 100 : ℚ)⌋)

/-- `u8_to_scalar` from src/types.rs: `Scalar::from(b) / 255.0`. -/
def u8_to_scalar (b : ℕ) : Scalar :=
  (b : ℚ) / 255

/-- `Color` from src/types.rs. -/
structure Color where
  r : Scalar
  g : Scalar
  b : Scalar
  a : Scalar
deriving DecidableEq

/-- `From<image::Rgba<u8>> for Color` from src/types.rs. -/
def Color.fromRgba (q : ℕ × ℕ × ℕ × ℕ) : Color :=
  ⟨u8_to_scalar q.1, u8_to_scalar q.2.1, u8_to_scalar q.2.2.1, u8_to_scalar q.2.2.2⟩

/-- `Into<image::Rgba<u8>> for Color` from src/types.rs. -/
def Color.toRgba (c : Color) : ℕ × ℕ × ℕ × ℕ :=
  (scalar_to_u8 c.r, scalar_to_u8 c.g, scalar_to_u8 c.b, scalar_to_u8 c.a)

/-- The geometric fields of a `HitResult` (src/shapes.rs).  The Rust
`Material::scatter` receives the whole `HitResult` but reads only `p` and
`normal`; splitting these fields out lets materials be modelled as plain
functions without a negatively recursive type. -/
structure HitRecord where
  t : Scalar
  p : Point3
  normal : Vector3
deriving DecidableEq

/-- `HitResult` from src/shapes.rs, generic over the material handle type
(`Arc<dyn Material>` in the source). -/
structure HitResult (M : Type) where
  t : Scalar
  p : Point3
  normal : Vector3
  material : M
deriving DecidableEq

/-- The geometric projection handed to a scatter call. -/
def HitResult.record {M : Type} (h : HitResult M) : HitRecord :=
  ⟨h.t, h.p, h.normal⟩

/-- `Sphere` from src/shapes.rs. -/
structure Sphere (M : Type) where
  center : Point3
  radius : Scalar
  material : M

/-- `Sphere::hit` from src/shapes.rs, transcribed branch for branch.
For a negative discriminant the `f32` code puts NaN in `t1`/`t2`, every
comparison on them is false and the result is `None`; the model's
`Rat.sqrt` of a negative argument is 0, making `t1 = t2`, so both guards
also fail and the result is also `none`. -/
def Sphere.hit {M : Type} (s : Sphere M) (ray : Ray) (t_min t_max : Scalar) :
    Option (HitResult M) :=
  let oc := ray.origin - s.center
  let a := ray.direction.dot ray.direction
  let b := 2 * oc.dot ray.direction
  let c := oc.dot oc - s.radius * s.radius
  let discriminant := b * b - 4 * a * c
  let t1 := (-b - Rat.sqrt discriminant) / (2 * a)
  let t2 := (-b + Rat.sqrt discriminant) / (2 * a)
  let t : Option Scalar :=
    if discriminant > 0 ∧ t1 < t2 ∧ t1 > t_min ∧ t1 < t_max then some t1
    else if discriminant > 0 ∧ t2 < t1 ∧ t2 > t_min ∧ t2 < t_max then some t2
    else none
  t.map fun tv =>
    let p := ray.at tv
    ⟨tv, p, (p - s.center) / s.radius, s.material⟩

/-- A `dyn Shape` (src/shapes.rs) / `dyn Hit` (src/main.rs) trait object:
just its `hit` method. -/
abbrev ShapeFn (M : Type) := Ray → Scalar → Scalar → Option (HitResult M)

/-- `Scene` from src/shapes.rs: `Vec<Arc<dyn Shape>>`. -/
abbrev Scene (M : Type) := List (ShapeFn M)

/-- Rust's `Iterator::min_by` with comparator
`x.t.partial_cmp(&y.t).unwrap_or(Equal)`: a left fold that replaces the
accumulator only on a strictly smaller key, so the first minimum wins. -/
def minByT {M : Type} (l : List (HitResult M)) : Option (HitResult M) :=
  match l with
  | [] => none
  | x :: xs => some (xs.foldl (fun acc y => if y.t < acc.t then y else acc) x)

/-- `impl Shape for Scene` / `impl Hit for Vec<Box<dyn Hit>>`:
`filter_map` over the members, then `min_by` on `t`. -/
def Scene.hit {M : Type} (scene : Scene M) (ray : Ray) (t_min t_max : Scalar) :
    Option (HitResult M) :=
  minByT (scene.filterMap fun h => h ray t_min t_max)

/-- `ScatteredRay` from src/materials.rs. -/
structure ScatteredRay where
  ray : Ray
  attenuation : Color
deriving DecidableEq

/-- `reflect` from src/materials.rs. -/
def reflect (v n : Vector3) : Vector3 :=
  v - (2 * v.dot n) • n

/-- `refract` from src/materials.rs. -/
def refract (v n : Vector3) (ni_over_nt : Scalar) : Option Vector3 :=
  let uv := v.normalize
  let dt := uv.dot n
  let discriminant := 1 - ni_over_nt * ni_over_nt * (1 - dt * dt)
  if discriminant > 0 then
    some (ni_over_nt • (uv - dt • n) - Rat.sqrt discriminant • n)
  else
    none

/-- `schlick` from src/materials.rs (`powi(5)` is an exact integer power). -/
def schlick (cosine ior : Scalar) : Scalar :=
  let sqrt_r0 := (1 - ior) / (1 + ior)
  let r0 := sqrt_r0 * sqrt_r0
  r0 + (1 - r0) * (1 - cosine) ^ (5 : ℕ)

/-- `Metal` from src/materials.rs. -/
structure Metal where
  albedo : Color
  roughness : Scalar

/-- `Metal::scatter` from src/materials.rs.  `rnd` is the value the call
draws from `random_in_unit_sphere()`. -/
def Metal.scatter (m : Metal) (ray : Ray) (hit : HitRecord) (rnd : Vector3) :
    Option ScatteredRay :=
  let reflected := reflect ray.direction.normalize hit.normal
  if reflected.dot hit.normal > 0 then
    some ⟨Ray.new hit.p (reflected + m.roughness • rnd), m.albedo⟩
  else
    none

/-- `Dialectric` from src/materials.rs (the source's spelling). -/
structure Dialectric where
  albedo : Color
  ior : Scalar

/-- `Dialectric::scatter` from src/materials.rs.  `rnd` is the value the
call draws from `random::<f32>()`, uniform in `[0,1)`.  In the `dot > 0`
branch the `f32` code can take `sqrt` of a negative number, making
`cosine` NaN, so `rnd >= schlick(...)` is false and the reflection branch
is taken; the model's `Rat.sqrt` then yields `cosine = 0`, hence
`schlick = 1 > rnd`, and the same reflection branch is taken. -/
def Dialectric.scatter (m : Dialectric) (ray : Ray) (hit : HitRecord) (rnd : Scalar) :
    Option ScatteredRay :=
  let reflected := reflect ray.direction hit.normal
  let dot := ray.direction.dot hit.normal / ray.direction.magnitude
  let branch : Vector3 × Scalar × Scalar :=
    if dot > 0 then
      (-hit.normal, m.ior, Rat.sqrt (1 - m.ior * m.ior * (1 - dot * dot)))
    else
      (hit.normal, 1 / m.ior, -dot)
  let outward_normal := branch.1
  let ni_over_nt := branch.2.1
  let cosine := branch.2.2
  match refract ray.direction outward_normal ni_over_nt with
  | some refracted =>
    if rnd ≥ schlick cosine m.ior then
      some ⟨Ray.new hit.p refracted, m.albedo⟩
    else
      some ⟨Ray.new hit.p reflected, m.albedo⟩
  | none => some ⟨Ray.new hit.p reflected, m.albedo⟩

/-- A scattered ray as `color` in src/main.rs consumes it: there the
attenuation is an `nalgebra::Vector3<f32>`. -/
structure ScatteredRayV where
  ray : Ray
  attenuation : Vector3

/-- A `dyn Material` trait object as stored in a hit result and consumed
by `color` in src/main.rs: its `scatter` method, with the randomness the
call would draw already fixed. -/
abbrev MaterialV := Ray → HitRecord → Option ScatteredRayV

/-- `std::f32::MAX`, which is exactly `2^128 - 2^104`. -/
def f32_MAX : Scalar := 2 ^ (128 : ℕ) - 2 ^ (104 : ℕ)

/-- The sky-gradient tail of `color` in src/main.rs. -/
def sky (ray : Ray) : Vector3 :=
  let unit_direction := ray.direction.normalize
  let t := (1 / 2 : Scalar) * (unit_direction.y + 1)
  (1 - t) • (⟨1, 1, 1⟩ : Vector3) + t • (⟨1 / 2, 7 / 10, 1⟩ : Vector3)

/-- `color` from src/main.rs, transcribed control path for control path:
when the scene is hit and the depth budget is not yet exhausted the
material scatters and the result is `attenuation.component_mul(recurse)`;
when the budget is exhausted the result is black; in every remaining case
(no hit, or the material absorbs) control falls through to the sky
gradient of the ORIGINAL ray. -/
def color (scene : ShapeFn MaterialV) (ray : Ray) (maxdepth depth : ℕ) : Vector3 :=
  match scene ray (1 / 1000) f32_MAX with
  | some hit =>
    if _h : depth ≥ maxdepth then ⟨0, 0, 0⟩
    else
      match hit.material ray hit.record with
      | some scattered =>
        (scattered.attenuation).component_mul (color scene scattered.ray maxdepth (depth + 1))
      | none => sky ray
  | none => sky ray
termination_by maxdepth - depth
decreasing_by
  simp_wf
  omega

/-- A freshly allocated image row (src/image.rs `alloc`): no offset has
been written yet. -/
def emptyRow (P : Type) : ℕ → Option P :=
  fun _ => none

/-- The per-row loop of `Image::render` (src/image.rs): for `x` in
`0..width`, write `f(x, y)` at offset `x` of the row's buffer. -/
def renderRow {P : Type} (f : ℕ → ℕ → P) (width y : ℕ) : ℕ → Option P :=
  (List.range width).foldl (fun buf xx => fun i => if i = xx then some (f xx y) else buf i)
    (emptyRow P)

/-- `Image` from src/image.rs: one separately allocated buffer per row. -/
structure Image (P : Type) where
  width : ℕ
  height : ℕ
  rows : List (ℕ → Option P)

/-- `Image::from_fn` (src/image.rs): allocate, then `render`, which
schedules one task per row; the tasks write disjoint rows, so the
post-join buffer contents are row-wise sequential. -/
def Image.from_fn (P : Type) (width height : ℕ) (f : ℕ → ℕ → P) : Image P :=
  ⟨width, height, (List.range height).map fun y => renderRow f width y⟩

/-- The pixel `Image::save` (src/image.rs) reads back at `(x, y)`:
row `y`'s buffer at offset `x` (`channels4` then `from_channels` is the
identity on the pixel). -/
def Image.save_pixel {P : Type} (img : Image P) (x y : ℕ) : Option P :=
  (img.rows.getD y (emptyRow P)) x

/-- A material that always absorbs (as `Metal::scatter` can): scatter
returns `None` for every input. -/
def absorbAll : MaterialV :=
  fun _ _ => none

/-- A hit whose material always absorbs. -/
def hitAbsorb : HitResult MaterialV :=
  ⟨1, ⟨0, 0, 0⟩, ⟨0, 1, 0⟩, absorbAll⟩

/-- A scene whose `hit` always reports `hitAbsorb`. -/
def sceneAbsorb : ShapeFn MaterialV :=
  fun _ _ _ => some hitAbsorb

/-- A ray straight down the negative z axis. -/
def rayDown : Ray :=
  ⟨⟨0, 0, 0⟩, ⟨0, 0, -1⟩⟩

@[simp] theorem Vector3.add_def (v w : Vector3) :
    v + w = ⟨v.x + w.x, v.y + w.y, v.z + w.z⟩ := rfl

@[simp] theorem Vector3.sub_def (v w : Vector3) :
    v - w = ⟨v.x - w.x, v.y - w.y, v.z - w.z⟩ := rfl

@[simp] theorem Vector3.neg_def (v : Vector3) : -v = ⟨-v.x, -v.y, -v.z⟩ := rfl

@[simp] theorem Vector3.smul_def (k : Scalar) (v : Vector3) :
    k • v = ⟨k * v.x, k * v.y, k * v.z⟩ := rfl

@[simp] theorem Vector3.div_def (v : Vector3) (k : Scalar) :
    v / k = ⟨v.x / k, v.y / k, v.z / k⟩ := rfl

theorem ratSqrt_one : Rat.sqrt 1 = 1 := by norm_num

/-- A unit vector is its own normalization. -/
theorem normalize_of_unit (v : Vector3) (h : v.dot v = 1) : v.normalize = v := by
  unfold Vector3.normalize Vector3.magnitude
  rw [h, ratSqrt_one]
  cases v
  simp

/-- An option that is `some` in all three control paths with the same
attenuation, abstracted over the stochastic branch condition. -/
theorem ite_some_attenuation (c : Prop) [Decidable c] (r1 r2 : Ray) (alb : Color) :
    ∃ s : ScatteredRay, (if c then some ⟨r1, alb⟩ else some ⟨r2, alb⟩) = some s ∧
      s.attenuation = alb := by
  by_cases h : c
  · exact ⟨⟨r1, alb⟩, by rw [if_pos h], rfl⟩
  · exact ⟨⟨r2, alb⟩, by rw [if_neg h], rfl⟩

/-- C1: the spec says `Sphere::hit` picks the smallest root strictly inside
`(t_min, t_max)` and falls back to the larger root when only it is in range
(ray origin inside the sphere).  The code's second branch requires `t2 < t1`,
which never holds when the discriminant is positive (then `t1 < t2` by
construction), so the fallback is dead code and a ray starting at the centre
of the unit sphere reports NO hit: here `a = 1`, `b = 0`, `c = -1`, the
discriminant is `4 > 0`, the roots are `-1` (below `t_min = 1/1000`) and `1`
(inside `(1/1000, 1000)`), yet `hit` returns `none` where the spec demands a
hit at `t = 1`. -/
theorem C1_sphere_hit_inside_origin_misses :
    Sphere.hit (⟨⟨0, 0, 0⟩, 1, ()⟩ : Sphere Unit) (Ray.new ⟨0, 0, 0⟩ ⟨0, 0, 1⟩) (1 / 1000) 1000
        = none ∧
    ((0 : ℚ) * 0 - 4 * 1 * (0 - 1 * 1)) > 0 ∧
    (-(0 : ℚ) - Rat.sqrt ((0 : ℚ) * 0 - 4 * 1 * (0 - 1 * 1))) / (2 * 1) = -1 ∧
    (-(0 : ℚ) + Rat.sqrt ((0 : ℚ) * 0 - 4 * 1 * (0 - 1 * 1))) / (2 * 1) = 1 ∧
    ¬ ((1 / 1000 : ℚ) < -1 ∧ (-1 : ℚ) < 1000) ∧
    ((1 / 1000 : ℚ) < 1 ∧ (1 : ℚ) < 1000) := by
  refine ⟨?_, by norm_num, by norm_num, by norm_num, by norm_num, by norm_num⟩
  norm_num [Sphere.hit, Ray.new, Vector3.normalize, Vector3.magnitude, Vector3.dot]

/-- C4: `Metal::scatter` returns `None` exactly when the reflected
direction points at or below the surface (`reflected · normal <= 0`, with
`reflected = reflect(normalize(d), n)`), and whenever it scatters, the
attenuation is exactly the metal's albedo. -/
theorem C4_metal_scatter_spec (m : Metal) (ray : Ray) (hit : HitRecord) (rnd : Vector3) :
    (Metal.scatter m ray hit rnd = none ↔
      (reflect ray.direction.normalize hit.normal).dot hit.normal ≤ 0) ∧
    (∀ s, Metal.scatter m ray hit rnd = some s → s.attenuation = m.albedo) := by
  unfold Metal.scatter
  dsimp only
  by_cases hgt : (reflect ray.direction.normalize hit.normal).dot hit.normal > 0
  · rw [if_pos hgt]
    refine ⟨⟨fun hc => by simp at hc, fun hle => absurd hgt (not_lt.mpr hle)⟩, ?_⟩
    intro s hs
    injection hs with h
    rw [← h]
  · rw [if_neg hgt]
    refine ⟨⟨fun _ => not_lt.mp hgt, fun _ => rfl⟩, ?_⟩
    intro s hs
    exact Option.noConfusion hs

/-- Witness for C4: a concrete scatter that occurs (head-on reflection off
an upward-facing surface) has attenuation exactly the albedo. -/
theorem C4_metal_scatter_spec_witness :
    (⟨Ray.new ⟨0, 0, 0⟩ ⟨0, 1, 0⟩, ⟨1, 0, 0, 1⟩⟩ : ScatteredRay).attenuation =
      (⟨⟨1, 0, 0, 1⟩, 0⟩ : Metal).albedo :=
  (C4_metal_scatter_spec ⟨⟨1, 0, 0, 1⟩, 0⟩ ⟨⟨0, 0, 0⟩, ⟨0, -1, 0⟩⟩ ⟨1, ⟨0, 0, 0⟩, ⟨0, 1, 0⟩⟩
      ⟨0, 0, 0⟩).2 _ (by
    norm_num [Metal.scatter, reflect, Vector3.normalize, Vector3.magnitude, Vector3.dot])

/-- C2 (amended): when the hit material absorbs, `color` does NOT return
black: the `if let` chain falls through to the sky gradient of the original
ray (the spec's step 5 claims black). -/
theorem C2_absorbed_hit_falls_through_to_sky (scene : ShapeFn MaterialV) (ray : Ray)
    (maxdepth depth : ℕ) (hit : HitResult MaterialV)
    (hdepth : depth < maxdepth)
    (hhit : scene ray (1 / 1000) f32_MAX = some hit)
    (habsorb : hit.material ray hit.record = none) :
    color scene ray maxdepth depth = sky ray := by
  rw [color, hhit]
  dsimp only
  rw [dif_neg (by omega : ¬ depth ≥ maxdepth), habsorb]

/-- Counterexample to C2 as stated: a ray absorbed at its first hit yields
the sky gradient `(3/4, 17/20, 1)`, not black. -/
theorem C2_counterexample_absorbed_not_black :
    color sceneAbsorb rayDown 1 0 = ⟨3 / 4, 17 / 20, 1⟩ ∧
    (⟨3 / 4, 17 / 20, 1⟩ : Vector3) ≠ ⟨0, 0, 0⟩ := by
  constructor
  · rw [color]
    norm_num [sceneAbsorb, hitAbsorb, absorbAll, HitResult.record, sky, rayDown,
      Vector3.normalize, Vector3.magnitude, Vector3.dot]
  · norm_num [Vector3.mk.injEq]

/-- Witness for C2's amended theorem at a concrete absorbing scene. -/
theorem C2_absorbed_hit_falls_through_to_sky_witness :
    color sceneAbsorb rayDown 1 0 = sky rayDown :=
  C2_absorbed_hit_falls_through_to_sky sceneAbsorb rayDown 1 0 hitAbsorb (by omega) rfl rfl

/-- C6: `Ray::new` stores `direction.normalize()`; whenever the squared
norm is a nonzero rational perfect square (the idealisation of "within
floating tolerance"), the stored direction has squared magnitude exactly 1. -/
theorem C6_ray_new_stores_unit_direction (o : Point3) (v : Vector3)
    (hsq : Rat.sqrt (v.dot v) * Rat.sqrt (v.dot v) = v.dot v)
    (hnz : v.dot v ≠ 0) :
    (Ray.new o v).direction = v.normalize ∧
    ((Ray.new o v).direction).dot ((Ray.new o v).direction) = 1 := by
  refine ⟨rfl, ?_⟩
  show (v.normalize).dot (v.normalize) = 1
  have hsne : Rat.sqrt (v.dot v) ≠ 0 := by
    intro h0
    exact hnz (by rw [← hsq, h0, mul_zero])
  unfold Vector3.normalize Vector3.magnitude
  unfold Vector3.dot at hsq hsne hnz ⊢
  simp only [Vector3.div_def]
  field_simp
  linarith [hsq]

/-- Witness for C6 at the direction `(0, 3, 4)` of norm 5. -/
theorem C6_ray_new_stores_unit_direction_witness :
    ((Ray.new ⟨0, 0, 0⟩ ⟨0, 3, 4⟩).direction).dot ((Ray.new ⟨0, 0, 0⟩ ⟨0, 3, 4⟩).direction) = 1 :=
  (C6_ray_new_stores_unit_direction ⟨0, 0, 0⟩ ⟨0, 3, 4⟩ (by norm_num [Vector3.dot])
    (by norm_num [Vector3.dot])).2

/-- C7: with `max_depth = 0` the colour recursion never consults a hit's
material: on any hit it returns black at once, and otherwise it returns the
sky gradient.  (The Lean `color` is total by construction, so the recursion
terminates for every `maxdepth`.) -/
theorem C7_color_maxdepth_zero (scene : ShapeFn MaterialV) (ray : Ray) (depth : ℕ) :
    color scene ray 0 depth =
      match scene ray (1 / 1000) f32_MAX with
      | some _ => (⟨0, 0, 0⟩ : Vector3)
      | none => sky ray := by
  rw [color]
  cases h : scene ray (1 / 1000) f32_MAX <;> simp

/-- C9: `Dialectric::scatter` returns `some` on every control path, and in
each path the attenuation is the material's albedo. -/
theorem C9_dialectric_always_scatters (m : Dialectric) (ray : Ray) (hit : HitRecord)
    (rnd : Scalar) :
    ∃ s : ScatteredRay, Dialectric.scatter m ray hit rnd = some s ∧ s.attenuation = m.albedo := by
  unfold Dialectric.scatter
  dsimp only
  split
  · exact ite_some_attenuation _ _ _ _
  · exact ⟨_, rfl, rfl⟩

theorem Vector3.dot_neg_right (v n : Vector3) : v.dot (-n) = -(v.dot n) := by
  cases v
  cases n
  simp only [Vector3.neg_def, Vector3.dot]
  ring

/-- `refract` with ratio 1 on a unit incident vector strictly entering the
surface (`v · n < 0`) succeeds and does not bend the direction. -/
theorem refract_one_unit_entering (v n : Vector3) (hv : v.dot v = 1) (hneg : v.dot n < 0) :
    refract v n 1 = some v := by
  unfold refract
  dsimp only
  rw [normalize_of_unit v hv]
  rw [show (1 : ℚ) - 1 * 1 * (1 - v.dot n * (v.dot n)) = v.dot n * v.dot n from by ring]
  rw [if_pos (mul_pos_of_neg_of_neg hneg hneg)]
  rw [Rat.sqrt_eq, abs_of_neg hneg]
  congr 1
  cases v
  cases n
  simp only [Vector3.dot, Vector3.sub_def, Vector3.smul_def, Vector3.mk.injEq]
  exact ⟨by ring, by ring, by ring⟩

/-- C3 (amended): with `ior = 1`, a unit, non-grazing incident direction,
and a random draw at least the Schlick reflectance `(1 - |d·n|)^5`,
`Dialectric::scatter` returns the refracted ray and its direction is
exactly the incident direction (no bending).  As stated the claim is false:
the Schlick reflectance is positive away from normal incidence even at
`ior = 1`, so a small enough draw makes `scatter` return the REFLECTED
ray instead (see the counterexample). -/
theorem C3_dialectric_ior_one_refracts_unbent (m : Dialectric) (ray : Ray) (hit : HitRecord)
    (rnd : Scalar)
    (hior : m.ior = 1)
    (hunit : ray.direction.dot ray.direction = 1)
    (hdot : ray.direction.dot hit.normal ≠ 0)
    (hrnd : rnd ≥ schlick |ray.direction.dot hit.normal| 1) :
    Dialectric.scatter m ray hit rnd = some ⟨⟨hit.p, ray.direction⟩, m.albedo⟩ := by
  unfold Dialectric.scatter
  dsimp only
  rw [hior]
  have hmag : ray.direction.magnitude = 1 := by
    unfold Vector3.magnitude
    rw [hunit, ratSqrt_one]
  rw [hmag, div_one]
  by_cases hpos : ray.direction.dot hit.normal > 0
  · rw [if_pos hpos]
    dsimp only
    have hneg : ray.direction.dot (-hit.normal) < 0 := by
      rw [Vector3.dot_neg_right]
      linarith
    rw [refract_one_unit_entering ray.direction (-hit.normal) hunit hneg]
    dsimp only
    rw [show (1 : ℚ) - 1 * 1 *
          (1 - ray.direction.dot hit.normal * ray.direction.dot hit.normal) =
        ray.direction.dot hit.normal * ray.direction.dot hit.normal from by ring]
    rw [Rat.sqrt_eq, abs_of_pos hpos]
    rw [if_pos (by rwa [abs_of_pos hpos] at hrnd)]
    rw [Ray.new, normalize_of_unit _ hunit]
  · rw [if_neg hpos]
    dsimp only
    have hneg : ray.direction.dot hit.normal < 0 := lt_of_le_of_ne (not_lt.mp hpos) hdot
    rw [show (1 : ℚ) / 1 = 1 from by norm_num]
    rw [refract_one_unit_entering ray.direction hit.normal hunit hneg]
    dsimp only
    rw [if_pos (by rwa [abs_of_neg hneg] at hrnd)]
    rw [Ray.new, normalize_of_unit _ hunit]

/-- A glass-like dielectric with `ior = 1` and white albedo. -/
def dialGlass : Dialectric :=
  ⟨⟨1, 1, 1, 1⟩, 1⟩

/-- A unit oblique downward ray. -/
def rayOblique : Ray :=
  ⟨⟨0, 0, 0⟩, ⟨3 / 5, -4 / 5, 0⟩⟩

/-- A hit at the origin with upward normal. -/
def hitUp : HitRecord :=
  ⟨1, ⟨0, 0, 0⟩, ⟨0, 1, 0⟩⟩

theorem ratSqrt_sixteen_twentyfifths : Rat.sqrt (16 / 25) = 4 / 5 := by
  have h := Rat.sqrt_eq (4 / 5 : ℚ)
  rw [abs_of_pos (by norm_num : (0 : ℚ) < 4 / 5)] at h
  norm_num at h
  exact h

theorem abs_four_fifths : |(4 / 5 : ℚ)| = 4 / 5 :=
  abs_of_pos (by norm_num)

/-- Counterexample to C3 as stated: at `ior = 1`, incidence `|d·n| = 4/5`
and random draw 0 (`0 < (1 - 4/5)^5 = ` Schlick reflectance), `scatter`
returns the REFLECTED ray `(3/5, 4/5, 0)`, not the refracted one, and that
direction differs from the (normalized) incident direction. -/
theorem C3_counterexample_ior_one_can_reflect :
    Dialectric.scatter dialGlass rayOblique hitUp 0 =
      some ⟨⟨⟨0, 0, 0⟩, ⟨3 / 5, 4 / 5, 0⟩⟩, ⟨1, 1, 1, 1⟩⟩ ∧
    (⟨3 / 5, 4 / 5, 0⟩ : Vector3) ≠ (rayOblique.direction).normalize := by
  constructor
  · unfold Dialectric.scatter
    dsimp only
    norm_num [dialGlass, rayOblique, hitUp, refract, reflect, schlick, Ray.new,
      Vector3.normalize, Vector3.magnitude, Vector3.dot, ratSqrt_sixteen_twentyfifths]
  · unfold Vector3.normalize Vector3.magnitude
    norm_num [rayOblique, Vector3.dot, Vector3.mk.injEq]

/-- Witness for C3's amended theorem: with draw 1 the same configuration
refracts and the direction is unchanged. -/
theorem C3_dialectric_ior_one_refracts_unbent_witness :
    Dialectric.scatter dialGlass rayOblique hitUp 1 =
      some ⟨⟨⟨0, 0, 0⟩, ⟨3 / 5, -4 / 5, 0⟩⟩, ⟨1, 1, 1, 1⟩⟩ :=
  C3_dialectric_ior_one_refracts_unbent dialGlass rayOblique hitUp 1 rfl
    (by norm_num [rayOblique, Vector3.dot])
    (by norm_num [rayOblique, hitUp, Vector3.dot])
    (by norm_num [rayOblique, hitUp, Vector3.dot, schlick, abs_four_fifths])

theorem minByT_eq_none_iff {M : Type} (l : List (HitResult M)) :
    minByT l = none ↔ l = [] := by
  cases l <;> simp [minByT]

/-- The `min_by` fold returns its accumulator or a list element. -/
theorem foldl_min_mem {M : Type} (l : List (HitResult M)) (acc : HitResult M) :
    l.foldl (fun acc y => if y.t < acc.t then y else acc) acc = acc ∨
    l.foldl (fun acc y => if y.t < acc.t then y else acc) acc ∈ l := by
  induction l generalizing acc with
  | nil => exact Or.inl rfl
  | cons a l ih =>
    simp only [List.foldl_cons]
    rcases ih (if a.t < acc.t then a else acc) with h | h
    · rw [h]
      by_cases hc : a.t < acc.t
      · rw [if_pos hc]
        exact Or.inr (List.mem_cons_self a l)
      · rw [if_neg hc]
        exact Or.inl rfl
    · exact Or.inr (List.mem_cons_of_mem a h)

/-- The `min_by` fold result is a lower bound for the accumulator and for
every list element. -/
theorem foldl_min_le {M : Type} (l : List (HitResult M)) (acc : HitResult M) :
    (l.foldl (fun acc y => if y.t < acc.t then y else acc) acc).t ≤ acc.t ∧
    ∀ x ∈ l, (l.foldl (fun acc y => if y.t < acc.t then y else acc) acc).t ≤ x.t := by
  induction l generalizing acc with
  | nil => exact ⟨le_refl _, fun x hx => absurd hx (List.not_mem_nil x)⟩
  | cons a l ih =>
    simp only [List.foldl_cons]
    have h := ih (if a.t < acc.t then a else acc)
    have hacc : (if a.t < acc.t then a else acc).t ≤ acc.t := by
      by_cases hc : a.t < acc.t
      · rw [if_pos hc]
        exact le_of_lt hc
      · rw [if_neg hc]
    have ha : (if a.t < acc.t then a else acc).t ≤ a.t := by
      by_cases hc : a.t < acc.t
      · rw [if_pos hc]
      · rw [if_neg hc]
        exact not_lt.mp hc
    refine ⟨le_trans h.1 hacc, ?_⟩
    intro x hx
    rcases List.mem_cons.mp hx with rfl | hxl
    · exact le_trans h.1 ha
    · exact h.2 x hxl

/-- C5: `Scene::hit` returns `none` exactly when no member hits in range;
when it returns a hit, that hit is one of the member hits and its `t` is
minimal among them; the empty scene yields `none`. -/
theorem C5_scene_hit_nearest {M : Type} (scene : Scene M) (ray : Ray) (t_min t_max : Scalar) :
    (Scene.hit scene ray t_min t_max = none ↔
      scene.filterMap (fun h => h ray t_min t_max) = []) ∧
    (∀ r, Scene.hit scene ray t_min t_max = some r →
      r ∈ scene.filterMap (fun h => h ray t_min t_max) ∧
      ∀ x ∈ scene.filterMap (fun h => h ray t_min t_max), r.t ≤ x.t) ∧
    Scene.hit ([] : Scene M) ray t_min t_max = none := by
  refine ⟨minByT_eq_none_iff _, ?_, rfl⟩
  intro r hr
  unfold Scene.hit at hr
  cases hl : scene.filterMap (fun h => h ray t_min t_max) with
  | nil =>
    rw [hl] at hr
    exact Option.noConfusion hr
  | cons a l =>
    rw [hl] at hr
    unfold minByT at hr
    injection hr with h
    constructor
    · rw [← h]
      rcases foldl_min_mem l a with h2 | h2
      · rw [h2]
        exact List.mem_cons_self a l
      · exact List.mem_cons_of_mem a h2
    · intro x hx
      rw [← h]
      rcases List.mem_cons.mp hx with hxa | hxl
      · rw [hxa]
        exact (foldl_min_le l a).1
      · exact (foldl_min_le l a).2 x hxl

/-- A shape whose hit is always at `t = 5`. -/
def shapeA : ShapeFn Unit :=
  fun _ _ _ => some ⟨5, ⟨0, 0, 0⟩, ⟨0, 1, 0⟩, ()⟩

/-- A shape whose hit is always at `t = 3`. -/
def shapeB : ShapeFn Unit :=
  fun _ _ _ => some ⟨3, ⟨0, 0, 0⟩, ⟨0, 1, 0⟩, ()⟩

/-- Witness for C5 on a concrete two-member scene: the reported hit is a
member hit of minimal `t`. -/
theorem C5_scene_hit_nearest_witness :
    (⟨3, ⟨0, 0, 0⟩, ⟨0, 1, 0⟩, ()⟩ : HitResult Unit) ∈
      ([shapeA, shapeB] : Scene Unit).filterMap (fun h => h rayDown 0 10) ∧
    ∀ x ∈ ([shapeA, shapeB] : Scene Unit).filterMap (fun h => h rayDown 0 10),
      (⟨3, ⟨0, 0, 0⟩, ⟨0, 1, 0⟩, ()⟩ : HitResult Unit).t ≤ x.t :=
  (C5_scene_hit_nearest [shapeA, shapeB] rayDown 0 10).2.1 _ (by
    norm_num [Scene.hit, minByT, shapeA, shapeB, List.filterMap])

/-- Reading offset `i` after the row write loop: positions in the loop's
range hold the rendered pixel, others keep the prior buffer contents. -/
theorem row_write_read {P : Type} (f : ℕ → ℕ → P) (y : ℕ) (l : List ℕ) (buf : ℕ → Option P)
    (i : ℕ) :
    l.foldl (fun b xx => fun j => if j = xx then some (f xx y) else b j) buf i =
    if i ∈ l then some (f i y) else buf i := by
  induction l generalizing buf with
  | nil => simp
  | cons a l ih =>
    simp only [List.foldl_cons]
    rw [ih]
    by_cases hmem : i ∈ l
    · simp [hmem]
    · by_cases hia : i = a
      · subst hia
        simp [hmem]
      · simp [hmem, hia]

/-- C8: every pixel of an image built by `Image::from_fn` reads back, as
`save` reads it, exactly as the per-pixel function produced it — rows are
disjoint buffers, so there is no cross-row interference.  (The embedding
sequentialises the row tasks, which the source makes disjoint per thread;
the memory-model side of the claim is outside the embedding.) -/
theorem C8_image_pixel_roundtrip (P : Type) (width height : ℕ) (f : ℕ → ℕ → P)
    (x y : ℕ) (hx : x < width) (hy : y < height) :
    (Image.from_fn P width height f).save_pixel x y = some (f x y) := by
  unfold Image.from_fn Image.save_pixel
  dsimp only
  rw [List.getD_eq_getElem?_getD, List.getElem?_map, List.getElem?_range hy]
  unfold renderRow
  dsimp only [Option.map_some', Option.getD_some]
  rw [row_write_read]
  rw [if_pos (List.mem_range.mpr hx)]

/-- Witness for C8 on a concrete 3×2 image. -/
theorem C8_image_pixel_roundtrip_witness :
    (Image.from_fn ℕ 3 2 (fun xx yy => 10 * xx + yy)).save_pixel 2 1 = some 21 := by
  simpa using C8_image_pixel_roundtrip ℕ 3 2 (fun xx yy => 10 * xx + yy) 2 1 (by norm_num)
    (by norm_num)

/-- C10: converting a byte to a scalar and back is the identity, hence the
8-bit colour round trip reproduces every channel exactly. -/
theorem C10_u8_scalar_roundtrip :
    (∀ b : Fin 256, scalar_to_u8 (u8_to_scalar b) = b) ∧
    (∀ q : Fin 256 × Fin 256 × Fin 256 × Fin 256,
      Color.toRgba (Color.fromRgba ((q.1 : ℕ), (q.2.1 : ℕ), (q.2.2.1 : ℕ), (q.2.2.2 : ℕ))) =
        ((q.1 : ℕ), (q.2.1 : ℕ), (q.2.2.1 : ℕ), (q.2.2.2 : ℕ))) := by
  have key : ∀ b : ℕ, b ≤ 255 → scalar_to_u8 (u8_to_scalar b) = b := by
    intro b hb
    unfold scalar_to_u8 u8_to_scalar
    have hbq : (b : ℚ) ≤ 255 := by exact_mod_cast hb
    have hb0 : (0 : ℚ) ≤ (b : ℚ) := by positivity
    have h1 : ((b : ℚ) / 255 * (25599 / 100)) = (b : ℚ) * 25599 / 25500 := by ring
    rw [h1]
    have hfl : ⌊(b : ℚ) * 25599 / 25500⌋ = (b : ℤ) := by
      rw [Int.floor_eq_iff]
      constructor
      · rw [le_div_iff₀ (by norm_num)]
        push_cast
        nlinarith
      · rw [div_lt_iff₀ (by norm_num)]
        push_cast
        nlinarith
    rw [hfl, Int.toNat_natCast]
    exact min_eq_right hb
  refine ⟨fun b => key b (Nat.lt_succ_iff.mp b.isLt), fun q => ?_⟩
  simp only [Color.fromRgba, Color.toRgba]
  rw [key _ (Nat.lt_succ_iff.mp q.1.isLt), key _ (Nat.lt_succ_iff.mp q.2.1.isLt),
    key _ (Nat.lt_succ_iff.mp q.2.2.1.isLt), key _ (Nat.lt_succ_iff.mp q.2.2.2.isLt)]

end RTXon
